import Mathlib

/-!
Verification development for the AutoComm repository.

The repository ships a capability-orchestration layer (chunking, engine
fallback, timeout handling) whose backend sources are not part of the
checked-in tree; those components are modelled from the specification,
as marked on each definition.  The frontend JavaScript helpers
(theme toggling, text formatting, file-size formatting) are embedded
directly from `src/static/js/main.js` and `src/unnamed/part_000`,
using exact rational arithmetic for JavaScript numbers.
-/

namespace AutoComm

/-! ## Frontend: `src/static/js/main.js` -/

namespace MainJs

/-- Embedding of `toggleTheme` (src/static/js/main.js, lines 78-82).
The source statement is
`currentTheme = currentTheme === 'light' ? 'dark' : 'light'`;
the function maps the prior value of the `currentTheme` variable to the
new one. -/
def toggleTheme (currentTheme : String) : String :=
  if currentTheme = "light" then "dark" else "light"

/-- Options object accepted by `formatText` (src/static/js/main.js,
lines 445-468).  `trim` is true unless the caller passed
`options.trim === false`; `maxLength` is `none` when absent and
`some m` when the caller passed the number `m`. -/
structure FormatOptions where
  trim : Bool := true
  titleCase : Bool := false
  maxLength : Option Nat := none

/-- JavaScript word character, the regex class `\w` = `[A-Za-z0-9_]`. -/
def isWordChar (c : Char) : Bool :=
  (('a' ≤ c && c ≤ 'z') || ('A' ≤ c && c ≤ 'Z') || ('0' ≤ c && c ≤ '9') || c = '_')

/-- One global pass of `formatted.replace(/\w\S*\/g, txt =>
txt.charAt(0).toUpperCase() + txt.substr(1).toLowerCase())`
(src/static/js/main.js, lines 457-459): scanning left to right, each
maximal token that starts with a word character and extends through the
following non-space characters is rewritten with its first character
upper-cased and the remainder lower-cased. -/
def titleCaseList : List Char → List Char
  | [] => []
  | c :: cs =>
    if isWordChar c then
      c.toUpper :: ((cs.takeWhile (fun x => !x.isWhitespace)).map Char.toLower
        ++ titleCaseList (cs.dropWhile (fun x => !x.isWhitespace)))
    else
      c :: titleCaseList cs
termination_by l => l.length
decreasing_by
  · simpa using Nat.lt_succ_of_le (List.dropWhile_sublist _).length_le
  · simp

/-- Embedding of `formatText` (src/static/js/main.js, lines 445-468).
A `none` input models the JavaScript `null`/`undefined` arguments; the
guard `if (!text) return ''` also fires on the empty string.  After the
optional trim and title-case passes, the result is truncated to
`maxLength` characters plus the suffix `'...'` whenever `maxLength` is
a nonzero (truthy) number smaller than the current length. -/
def formatText (text : Option String) (options : FormatOptions) : String :=
  match text with
  | none => ""
  | some s =>
    if s = "" then ""
    else
      let f₁ := if options.trim then s.trim else s
      let f₂ := if options.titleCase then String.mk (titleCaseList f₁.toList) else f₁
      match options.maxLength with
      | some m =>
        if m ≠ 0 ∧ m < f₂.length then String.mk (f₂.toList.take m) ++ "..." else f₂
      | none => f₂

end MainJs

/-! ## Models of the JavaScript number and string builtins

The two `formatFileSize` implementations and `formatText` call several
JavaScript builtins.  They are modelled here over exact rational
arithmetic (the idealised semantics of JavaScript numbers, without
IEEE-754 rounding), restricted to the nonnegative values these call
sites produce. -/

namespace Js

/-- The decimal digit character for a value below ten. -/
def decDigit (d : Nat) : Char := Char.ofNat (48 + d)

/-- Most-significant-first decimal digits of a natural number; the
empty list for zero. -/
def natToDigits (n : Nat) : List Char :=
  if h : n = 0 then [] else natToDigits (n / 10) ++ [decDigit (n % 10)]
termination_by n
decreasing_by exact Nat.div_lt_self (Nat.pos_of_ne_zero h) (by omega)

/-- JavaScript ToString on a natural number. -/
def natToString (n : Nat) : String :=
  if n = 0 then "0" else String.mk (natToDigits n)

/-- Numeric value of a decimal digit character. -/
def digitVal (c : Char) : Nat := c.toNat - 48

/-- Numeric value of a most-significant-first digit list. -/
def digitsVal (l : List Char) : Nat :=
  l.foldl (fun a c => 10 * a + digitVal c) 0

/-- Model of `parseFloat` on the decimal strings produced by
`toFixed(2)`: an integer part, optionally followed by a dot and a
fractional part. -/
def parseFloatChars (l : List Char) : ℚ :=
  let ip := l.takeWhile Char.isDigit
  match l.dropWhile Char.isDigit with
  | '.' :: r =>
    (digitsVal ip : ℚ) +
      (digitsVal (r.takeWhile Char.isDigit) : ℚ) / 10 ^ (r.takeWhile Char.isDigit).length
  | _ => (digitsVal ip : ℚ)

/-- Model of the JavaScript `parseFloat` builtin. -/
def parseFloat (s : String) : ℚ := parseFloatChars s.toList

/-- Model of `Math.round`: round half away from zero toward positive
infinity, which on exact rationals is the floor of the value plus one
half. -/
def round (q : ℚ) : ℤ := ⌊q + 1 / 2⌋

/-- Two-digit zero-padded decimal rendering of a value below 100. -/
def pad2 (n : Nat) : String :=
  if n < 10 then "0" ++ natToString n else natToString n

/-- Model of `x.toFixed(2)` for nonnegative `x`: the value is rounded
to the nearest hundredth (ties toward the larger candidate, as the
ECMAScript specification prescribes) and rendered with exactly two
digits after the decimal point. -/
def toFixed2 (q : ℚ) : String :=
  natToString ((round (q * 100)).toNat / 100) ++ "." ++ pad2 ((round (q * 100)).toNat % 100)

/-- JavaScript ToString of the number `n / 100`: an exact decimal with
trailing fractional zeros removed, and no fractional part at all when
the value is an integer. -/
def hundredthsToString (n : Nat) : String :=
  if n % 100 = 0 then natToString (n / 100)
  else if n % 10 = 0 then natToString (n / 100) ++ "." ++ natToString (n % 100 / 10)
  else natToString (n / 100) ++ "." ++ pad2 (n % 100)

/-- Model of JavaScript ToString on the nonnegative numbers reachable
at the call sites below, all of which are integer multiples of one
hundredth. -/
def numToString (q : ℚ) : String :=
  if 0 ≤ q ∧ (100 * q).den = 1 then hundredthsToString (100 * q).num.toNat
  else "NaN"

end Js

namespace MainJs

/-- Embedding of the top-level `formatFileSize` (src/static/js/main.js,
lines 266-274): `parseFloat((bytes / Math.pow(k, i)).toFixed(2))`
concatenated with the unit name, where
`i = Math.floor(Math.log(bytes) / Math.log(1024))` (exactly the
base-1024 logarithm floor on exact reals).  Indexing `sizes[i]` out of
range yields the JavaScript `undefined`, which stringifies as shown. -/
def formatFileSize (bytes : Nat) : String :=
  if bytes = 0 then "0 Bytes"
  else
    Js.numToString (Js.parseFloat (Js.toFixed2 ((bytes : ℚ) / 1024 ^ Nat.log 1024 bytes)))
      ++ " " ++ (["Bytes", "KB", "MB", "GB"].getD (Nat.log 1024 bytes) "undefined")

end MainJs

/-! ## Frontend: `src/unnamed/part_000` -/

/-- Embedding of `Utils.formatFileSize` (src/unnamed/part_000, lines
195-201): `Math.round(bytes / Math.pow(k, i) * 100) / 100` concatenated
with the unit name, with the same index computation as the main.js
variant. -/
def Utils.formatFileSize (bytes : Nat) : String :=
  if bytes = 0 then "0 Bytes"
  else
    Js.numToString ((Js.round ((bytes : ℚ) / 1024 ^ Nat.log 1024 bytes * 100) : ℚ) / 100)
      ++ " " ++ (["Bytes", "KB", "MB", "GB"].getD (Nat.log 1024 bytes) "undefined")

/-! ## Orchestration core

The capability-orchestration layer described by the specification
(ChunkingEngine, EngineRegistry, Attempt Executor, FallbackChain,
CapabilityOrchestrator) lives in the backend sources — `app.py` and the
`services/` modules per the repository README — which are not part of
the checked-in tree.  Every definition in this namespace is therefore
modelled from the specification text, as its doc comment records.
Language detection (spec section 4.5) is not modelled because no
claim depends on it. -/

namespace Core

/-- Modelled from the spec: the four capability kinds (section 3,
CapabilityRequest); the concrete kind does not influence the text
orchestration pipeline modelled here. -/
inductive Capability
  | summarize
  | translate
  | speechToText
  | textToSpeech
deriving DecidableEq, Repr

/-- Modelled from the spec: per-engine failure kinds (section 3,
EngineOutcome). -/
inductive FailureKind
  | timeout
  | unavailable
  | quotaExceeded
  | invalidOutput
  | unsupportedLanguage
deriving DecidableEq, Repr

/-- Modelled from the spec: tagged engine outcome (section 3):
Success(payload, engineId) or Failure(kind, detail). -/
inductive EngineOutcome
  | success (payload : String) (engineId : String)
  | failure (kind : FailureKind) (detail : String)
deriving DecidableEq, Repr

/-- Modelled from the spec: an engine descriptor (section 3): identity,
priority rank, per-attempt timeout, the invoke contract and the
isDeterministic flag.  The `latency` field models the wall-clock
duration of one invocation of the underlying engine, needed to express
the timeout behaviour of the Attempt Executor (section 4.3). -/
structure EngineDescriptor where
  id : String
  priority : Nat
  timeout : Nat
  isDeterministic : Bool
  invoke : String → EngineOutcome
  latency : String → Nat

/-- Modelled from the spec: a chunk span (section 3): ordered index,
start/end offsets into the original input (`stop` models the `end`
offset), overlap-with-previous flag. -/
structure ChunkSpan where
  index : Nat
  start : Nat
  stop : Nat
  overlapWithPrev : Bool
deriving DecidableEq, Repr

/-- Modelled from the spec: overall status of a capability result
(section 3). -/
inductive Status
  | fullSuccess
  | degradedSuccess
  | failed
deriving DecidableEq, Repr

/-- Modelled from the spec: the error surfaced to the caller when
request validation fails (section 7 taxonomy). -/
inductive RequestError
  | invalidRequest
deriving DecidableEq, Repr

/-- Modelled from the spec: a capability request (section 3). -/
structure CapabilityRequest where
  capability : Capability
  input : String
  sourceLang : Option String := none
  targetLang : Option String := none

/-- Modelled from the spec: a capability result (section 3), extended
with the attempted-engine identities that the Attempt Executor reports
to the observability sink (section 4.3), so that claims about which
engines were invoked are expressible. -/
structure CapabilityResult where
  status : Status
  payload : String
  provenance : List String
  error : Option RequestError
  attempts : List String
deriving DecidableEq, Repr

/-- Sentence-final characters recognised by the sentence-boundary
splitting policy (section 4.1). -/
def isSentenceEnd (c : Char) : Bool :=
  c = '.' || c = '!' || c = '?'

/-- Largest cut position no greater than `m` (and within the list)
falling just after a character satisfying `p`, if any. -/
def lastBoundaryUpTo (p : Char → Bool) (m : Nat) (l : List Char) : Option Nat :=
  (((List.range (min m l.length)).filter (fun j => p (l.getD j ' '))).getLast?).map (· + 1)

/-- Modelled from the spec: the cut position for one oversized chunk
(section 4.1): prefer the last sentence boundary within the size
limit; otherwise the whitespace boundary nearest the limit; otherwise
hard-split at the limit itself. -/
def cutPoint (m : Nat) (l : List Char) : Nat :=
  match lastBoundaryUpTo isSentenceEnd m l with
  | some k => k
  | none =>
    match lastBoundaryUpTo (fun c => c.isWhitespace) m l with
    | some k => k
    | none => max 1 (min m l.length)

/-- Modelled from the spec: the text splitting policy of
ChunkingEngine.split (section 4.1), as the list of chunk texts: an
input shorter than `maxUnitSize` stays whole (a single chunk);
otherwise the input is cut at `cutPoint` and the remainder is split
recursively. -/
def pieces (m : Nat) (l : List Char) : List (List Char) :=
  if h : l = [] then []
  else if l.length < m then [l]
  else l.take (cutPoint m l) :: pieces m (l.drop (cutPoint m l))
termination_by l.length
decreasing_by
  have hpos : ∀ (p : Char → Bool) (k : Nat), lastBoundaryUpTo p m l = some k → 1 ≤ k := by
    intro p k hk
    unfold lastBoundaryUpTo at hk
    rcases Option.map_eq_some'.mp hk with ⟨j, hj, hjk⟩
    omega
  have h1 : 1 ≤ cutPoint m l := by
    unfold cutPoint
    split
    next k heq => exact hpos _ _ heq
    next heq =>
      split
      next k heq2 => exact hpos _ _ heq2
      next heq2 => exact le_max_left 1 _
  have h2 : 0 < l.length := List.length_pos.mpr h
  rw [List.length_drop]
  omega

/-- Modelled from the spec: the spans attached to the chunk texts:
consecutive indices and strictly increasing offsets; every chunk after
the first is flagged as overlapping its predecessor exactly when a
nonzero overlap is configured. -/
def spansFrom (o : Nat) : Nat → Nat → List (List Char) → List ChunkSpan
  | _, _, [] => []
  | idx, off, p :: ps =>
    ⟨idx, off, off + p.length, decide (0 < idx ∧ 0 < o)⟩ ::
      spansFrom o (idx + 1) (off + p.length) ps

/-- Modelled from the spec: ChunkingEngine.split (section 4.1) for
text, with configured overlap `o` (default 0) and chunk limit `m`. -/
def split (m o : Nat) (input : String) : List ChunkSpan :=
  spansFrom o 0 0 (pieces m input.toList)

/-- The unit text handed to the engines for one chunk: the chunk's own
span, extended backwards by the configured overlap (clipped at the
start of the input) when the chunk is flagged as overlapping its
predecessor (section 4.1, model-context continuity). -/
def unitOfChars (o : Nat) (l : List Char) (c : ChunkSpan) : List Char :=
  (l.drop (c.start - (if c.overlapWithPrev then min o c.start else 0))).take
    (c.stop - (c.start - (if c.overlapWithPrev then min o c.start else 0)))

/-- String-level wrapper around `unitOfChars`. -/
def unitOf (o : Nat) (input : String) (c : ChunkSpan) : String :=
  String.mk (unitOfChars o input.toList c)

/-- Modelled from the spec: the overlap stripping that merge performs
before concatenation (section 4.1): a chunk flagged as overlapping its
predecessor loses its leading overlap characters, so overlap is never
duplicated in the merged output. -/
def stripOverlap (o : Nat) (cp : ChunkSpan × String) : List Char :=
  if cp.1.overlapWithPrev then cp.2.toList.drop (min o cp.1.start) else cp.2.toList

/-- Modelled from the spec: ChunkingEngine.merge (section 4.1) over the
ordered per-chunk payloads: strip overlap, then concatenate. -/
def merge (o : Nat) (items : List (ChunkSpan × String)) : String :=
  String.mk (items.map (stripOverlap o)).flatten

/-- Modelled from the spec: the Attempt Executor (section 4.3).  The
result pairs the classified outcome with the time the call took: an
invocation finishing within the descriptor's timeout is returned as
classified by the engine; one still running at the deadline is
abandoned and reported as Failure(Timeout, ...), the caller being
released at the timeout plus the grace bound `g`. -/
def attempt (g : Nat) (d : EngineDescriptor) (u : String) : EngineOutcome × Nat :=
  if d.latency u ≤ d.timeout then (d.invoke u, d.latency u)
  else (.failure .timeout "attempt exceeded descriptor timeout", d.timeout + g)

/-- Boolean success test on an engine outcome. -/
def isSuccess : EngineOutcome → Bool
  | .success _ _ => true
  | .failure _ _ => false

/-- Modelled from the spec: FallbackChain.resolve (section 4.4) on one
unit, also returning the list of descriptors actually attempted.  The
chain walks the registry order, gives each descriptor exactly one
attempt, stops at the first success with provenance set to that
engine's identity, and reports `none` on exhaustion. -/
def resolveAux (g : Nat) (u : String) :
    List EngineDescriptor → Option (String × String) × List EngineDescriptor
  | [] => (none, [])
  | d :: ds =>
    match (attempt g d u).1 with
    | .success payload _ => (some (payload, d.id), [d])
    | .failure _ _ => ((resolveAux g u ds).1, d :: (resolveAux g u ds).2)

/-- Modelled from the spec: FallbackChain.resolve over the registry
order for a capability (section 4.4). -/
def resolve (g : Nat) (engines : List EngineDescriptor) (u : String) :
    Option (String × String) × List EngineDescriptor :=
  resolveAux g u engines

/-- Identity of the top-priority (non-fallback) descriptor: the head of
the registry order (section 4.2: ordering fixed at configuration
load). -/
def topEngineId (engines : List EngineDescriptor) : String :=
  ((engines.head?).map EngineDescriptor.id).getD ""

/-- Modelled from the spec: reassembly in original chunk-index order
(section 5: merge must wait for all chunk results and reassemble in
original chunk order regardless of completion order). -/
def sortByIndex (items : List (ChunkSpan × String)) : List (ChunkSpan × String) :=
  items.mergeSort (fun a b => decide (a.1.index ≤ b.1.index))

/-- Assemble completed chunk results: restore original chunk order,
then merge. -/
def assembleInOrder (o : Nat) (items : List (ChunkSpan × String)) : String :=
  merge o (sortByIndex items)

/-- Per-chunk resolution results for one request input: each chunk span
paired with the fallback-chain outcome on that chunk's unit text
(section 4.6, steps 3 and 4). -/
def chunkResults (g m o : Nat) (engines : List EngineDescriptor) (input : String) :
    List (ChunkSpan × (Option (String × String) × List EngineDescriptor)) :=
  (split m o input).map (fun c => (c, resolve g engines (unitOf o input c)))

/-- The unit texts of all chunks of a request input. -/
def chunkUnits (m o : Nat) (input : String) : List String :=
  (split m o input).map (unitOf o input)

/-- Modelled from the spec: CapabilityOrchestrator.handle
(section 4.6): validate the request (step 1, non-empty input, failing
fast with InvalidRequest and invoking no engine otherwise), split
(step 3), resolve each chunk through the fallback chain (step 4),
reassemble in chunk order (step 5), and compute the overall status
from per-chunk provenance (step 6): FullSuccess when every chunk was
served by the top-priority descriptor, DegradedSuccess when at least
one chunk fell back, and Failed only on chain exhaustion. -/
def handle (g m o : Nat) (engines : List EngineDescriptor) (req : CapabilityRequest) :
    CapabilityResult :=
  if req.input = "" then ⟨.failed, "", [], some .invalidRequest, []⟩
  else
    if (chunkResults g m o engines req.input).all (fun r => r.2.1.isSome) then
      ⟨if ((chunkResults g m o engines req.input).map
            (fun r => (r.2.1.map Prod.snd).getD "")).all
            (fun pid => pid == topEngineId engines)
          then .fullSuccess else .degradedSuccess,
       assembleInOrder o ((chunkResults g m o engines req.input).map
         (fun r => (r.1, (r.2.1.map Prod.fst).getD ""))),
       (chunkResults g m o engines req.input).map (fun r => (r.2.1.map Prod.snd).getD ""),
       none,
       ((chunkResults g m o engines req.input).map
         (fun r => r.2.2.map EngineDescriptor.id)).flatten⟩
    else
      ⟨.failed, "", [], none,
       ((chunkResults g m o engines req.input).map
         (fun r => r.2.2.map EngineDescriptor.id)).flatten⟩

/-- Sample primary speech-to-text descriptor whose engine exceeds its
5000 ms timeout, used to witness the timeout claims. -/
def sampleCloudEngine : EngineDescriptor :=
  ⟨"cloud-stt", 0, 5000, false, fun _ => .success "cloud transcript" "cloud-stt", fun _ => 7000⟩

/-- Sample deterministic terminal descriptor that always succeeds
promptly. -/
def sampleOfflineEngine : EngineDescriptor :=
  ⟨"offline-stt", 1, 3000, true, fun u => .success (String.append "offline:" u) "offline-stt",
    fun _ => 10⟩

/-- Sample primary descriptor whose model is unavailable, used to
witness the fallback claims. -/
def sampleFailingEngine : EngineDescriptor :=
  ⟨"ml-summarizer", 0, 5000, false, fun _ => .failure .unavailable "model down", fun _ => 10⟩

/-- Sample registry order: failing primary engine, then deterministic
terminal engine. -/
def sampleRegistry : List EngineDescriptor :=
  [sampleFailingEngine, sampleOfflineEngine]

/-- Sample well-formed summarization request. -/
def sampleRequest : CapabilityRequest :=
  ⟨.summarize, "some text to summarize.", none, none⟩

end Core

/-! ## Claims C9 and C10 -/

/-- C9: after a call to `toggleTheme` the value of `currentTheme` is a
member of the set containing light and dark; it is dark exactly when
the prior value was light, and light otherwise; and from any prior
state that is light or dark, two successive calls restore the original
value. -/
theorem toggleTheme_state_invariant (t : String) :
    (MainJs.toggleTheme t = "dark" ∨ MainJs.toggleTheme t = "light") ∧
    (MainJs.toggleTheme t = "dark" ↔ t = "light") ∧
    ((t = "light" ∨ t = "dark") → MainJs.toggleTheme (MainJs.toggleTheme t) = t) := by
  by_cases h : t = "light"
  · simp [MainJs.toggleTheme, h]
  · have h1 : MainJs.toggleTheme t = "light" := by simp [MainJs.toggleTheme, h]
    refine ⟨Or.inr h1, ⟨fun hd => ?_, fun hl => absurd hl h⟩, fun hld => ?_⟩
    · rw [h1] at hd
      exact absurd hd (by decide)
    · cases hld with
      | inl h2 => exact absurd h2 h
      | inr h2 => rw [h1]; simp [MainJs.toggleTheme, h2]

/-- Witness for C9 at the concrete prior theme value dark. -/
theorem toggleTheme_state_invariant_witness :
    (MainJs.toggleTheme "dark" = "dark" ∨ MainJs.toggleTheme "dark" = "light") ∧
    (MainJs.toggleTheme "dark" = "dark" ↔ "dark" = "light") ∧
    MainJs.toggleTheme (MainJs.toggleTheme "dark") = "dark" :=
  ⟨(toggleTheme_state_invariant "dark").1,
   (toggleTheme_state_invariant "dark").2.1,
   (toggleTheme_state_invariant "dark").2.2 (Or.inr rfl)⟩

/-- C10: for every text input and every options object carrying a
positive integer maxLength, the string returned by `formatText` has
length at most maxLength plus three (the three extra characters being
the truncation suffix), and `formatText` returns the empty string on
null, undefined, and empty inputs. -/
theorem formatText_length_bound (s : String) (options : MainJs.FormatOptions)
    (m : Nat) (hm : options.maxLength = some m) (hpos : 0 < m) :
    (MainJs.formatText (some s) options).length ≤ m + 3 ∧
    MainJs.formatText none options = "" ∧
    MainJs.formatText (some "") options = "" := by
  refine ⟨?_, rfl, rfl⟩
  unfold MainJs.formatText
  by_cases hs : s = ""
  · simp [hs]
  · simp only [hs, if_false, hm]
    set f₂ := (if options.titleCase
      then String.mk (MainJs.titleCaseList (if options.trim then s.trim else s).toList)
      else (if options.trim then s.trim else s)) with hf₂
    by_cases hcut : m ≠ 0 ∧ m < f₂.length
    · have hdata : f₂.toList.length = f₂.length := rfl
      have hlen : (String.mk (f₂.toList.take m) ++ "...").length = m + 3 := by
        have htake : (f₂.toList.take m).length = m := by
          rw [List.length_take]
          omega
        rw [String.length_append]
        show (f₂.toList.take m).length + 3 = m + 3
        rw [htake]
      rw [if_pos hcut]
      omega
    · rw [if_neg hcut]
      have hge : ¬ m < f₂.length := fun hlt => hcut ⟨by omega, hlt⟩
      omega

/-- Witness for C10 at a concrete input and a concrete maxLength. -/
theorem formatText_length_bound_witness :
    (⟨true, false, some 5⟩ : MainJs.FormatOptions).maxLength = some 5 ∧
    0 < 5 ∧
    (MainJs.formatText (some "hello automation world") ⟨true, false, some 5⟩).length ≤ 5 + 3 ∧
    MainJs.formatText none ⟨true, false, some 5⟩ = "" ∧
    MainJs.formatText (some "") ⟨true, false, some 5⟩ = "" := by
  have h := formatText_length_bound "hello automation world" ⟨true, false, some 5⟩ 5 rfl
    (by decide)
  exact ⟨rfl, by decide, h.1, h.2.1, h.2.2⟩

/-! ## Claim C8: the two file-size formatters agree -/

theorem Js.decDigit_isDigit (d : Nat) (h : d < 10) : (Js.decDigit d).isDigit = true := by
  interval_cases d <;> decide

theorem Js.digitVal_decDigit (d : Nat) (h : d < 10) : Js.digitVal (Js.decDigit d) = d := by
  interval_cases d <;> decide

theorem Js.natToDigits_isDigit (n : Nat) : ∀ c ∈ Js.natToDigits n, c.isDigit = true := by
  induction n using Nat.strong_induction_on with
  | _ n ih =>
    rw [Js.natToDigits]
    by_cases h : n = 0
    · simp [h]
    · simp only [h, dif_neg, not_false_iff, List.mem_append, List.mem_singleton]
      intro c hc
      cases hc with
      | inl h1 => exact ih (n / 10) (Nat.div_lt_self (Nat.pos_of_ne_zero h) (by omega)) c h1
      | inr h2 => exact h2 ▸ Js.decDigit_isDigit _ (Nat.mod_lt n (by omega))

theorem Js.digitsVal_append_singleton (l : List Char) (c : Char) :
    Js.digitsVal (l ++ [c]) = 10 * Js.digitsVal l + Js.digitVal c := by
  simp [Js.digitsVal, List.foldl_append]

theorem Js.digitsVal_natToDigits (n : Nat) : Js.digitsVal (Js.natToDigits n) = n := by
  induction n using Nat.strong_induction_on with
  | _ n ih =>
    rw [Js.natToDigits]
    by_cases h : n = 0
    · simp [h, Js.digitsVal]
    · rw [dif_neg h, Js.digitsVal_append_singleton,
        ih (n / 10) (Nat.div_lt_self (Nat.pos_of_ne_zero h) (by omega)),
        Js.digitVal_decDigit _ (Nat.mod_lt n (by omega))]
      omega

theorem Js.natToString_isDigit (n : Nat) : ∀ c ∈ (Js.natToString n).toList, c.isDigit = true := by
  unfold Js.natToString
  by_cases h : n = 0
  · simp [h]
  · simp only [h, if_false]
    exact Js.natToDigits_isDigit n

theorem Js.digitsVal_natToString (n : Nat) : Js.digitsVal ((Js.natToString n).toList) = n := by
  unfold Js.natToString
  by_cases h : n = 0
  · simp [h]
    decide
  · simp only [h, if_false]
    exact Js.digitsVal_natToDigits n

theorem List.takeWhile_append_of_all {α : Type} (p : α → Bool) (A B : List α)
    (h : ∀ c ∈ A, p c = true) : (A ++ B).takeWhile p = A ++ B.takeWhile p := by
  induction A with
  | nil => simp
  | cons a A ih =>
    have ha : p a = true := h a (List.mem_cons_self a A)
    simp only [List.cons_append, List.takeWhile_cons, ha, if_true]
    rw [ih (fun c hc => h c (List.mem_cons_of_mem a hc))]

theorem List.dropWhile_append_of_all {α : Type} (p : α → Bool) (A B : List α)
    (h : ∀ c ∈ A, p c = true) : (A ++ B).dropWhile p = B.dropWhile p := by
  induction A with
  | nil => simp
  | cons a A ih =>
    have ha : p a = true := h a (List.mem_cons_self a A)
    simp only [List.cons_append, List.dropWhile_cons, ha, if_true]
    exact ih (fun c hc => h c (List.mem_cons_of_mem a hc))

theorem List.takeWhile_eq_self_of_all {α : Type} (p : α → Bool) (B : List α)
    (h : ∀ c ∈ B, p c = true) : B.takeWhile p = B := by
  induction B with
  | nil => simp
  | cons b B ih =>
    simp only [List.takeWhile_cons, h b (List.mem_cons_self b B), if_true]
    rw [ih (fun c hc => h c (List.mem_cons_of_mem b hc))]

theorem Js.pad2_isDigit (f : Nat) : ∀ c ∈ (Js.pad2 f).toList, c.isDigit = true := by
  unfold Js.pad2
  by_cases h : f < 10
  · simp only [h, if_true]
    intro c hc
    rw [String.toList, String.data_append] at hc
    cases List.mem_append.mp hc with
    | inl h1 => simp at h1; rw [h1]; decide
    | inr h2 => exact Js.natToString_isDigit f c h2
  · simp only [h, if_false]
    exact Js.natToString_isDigit f

theorem Js.digitsVal_pad2 (f : Nat) : Js.digitsVal ((Js.pad2 f).toList) = f := by
  unfold Js.pad2
  by_cases h : f < 10
  · simp only [h, if_true]
    rw [String.toList, String.data_append]
    show Js.digitsVal ('0' :: (Js.natToString f).data) = f
    have : Js.digitsVal ('0' :: (Js.natToString f).data) =
        (Js.natToString f).data.foldl (fun a c => 10 * a + Js.digitVal c) 0 := by
      simp [Js.digitsVal, List.foldl_cons]
      rfl
    rw [this]
    exact Js.digitsVal_natToString f
  · simp only [h, if_false]
    exact Js.digitsVal_natToString f

theorem Js.natToDigits_length_one (n : Nat) (h1 : 1 ≤ n) (h2 : n < 10) :
    (Js.natToDigits n).length = 1 := by
  rw [Js.natToDigits]
  have hn : ¬ n = 0 := by omega
  rw [dif_neg hn]
  have : n / 10 = 0 := Nat.div_eq_of_lt h2
  rw [this, Js.natToDigits]
  simp

theorem Js.pad2_length (f : Nat) (h : f < 100) : (Js.pad2 f).toList.length = 2 := by
  unfold Js.pad2
  by_cases h1 : f < 10
  · simp only [h1, if_true]
    rw [String.toList, String.data_append]
    unfold Js.natToString
    by_cases h0 : f = 0
    · simp [h0]
    · simp only [h0, if_false]
      show ('0' :: Js.natToDigits f).length = 2
      simp [Js.natToDigits_length_one f (by omega) h1]
  · simp only [h1, if_false]
    unfold Js.natToString
    have h0 : ¬ f = 0 := by omega
    rw [if_neg h0]
    show (Js.natToDigits f).length = 2
    rw [Js.natToDigits]
    rw [dif_neg h0]
    have hq1 : 1 ≤ f / 10 := by omega
    have hq2 : f / 10 < 10 := by omega
    simp [Js.natToDigits_length_one (f / 10) hq1 hq2]

theorem Js.parseFloat_fixedForm (k f : Nat) (hf : f < 100) :
    Js.parseFloat (Js.natToString k ++ "." ++ Js.pad2 f) = (k : ℚ) + (f : ℚ) / 100 := by
  unfold Js.parseFloat Js.parseFloatChars
  have hchars : (Js.natToString k ++ "." ++ Js.pad2 f).toList =
      (Js.natToString k).toList ++ ('.' :: (Js.pad2 f).toList) := by
    show ((Js.natToString k ++ ".") ++ Js.pad2 f).data =
      (Js.natToString k).data ++ ('.' :: (Js.pad2 f).data)
    rw [String.data_append, String.data_append]
    simp [List.append_assoc]
  rw [hchars]
  rw [List.takeWhile_append_of_all _ _ _ (Js.natToString_isDigit k),
    List.dropWhile_append_of_all _ _ _ (Js.natToString_isDigit k)]
  have hdot : Char.isDigit '.' = false := by decide
  simp only [List.takeWhile_cons, List.dropWhile_cons, hdot, if_false, Bool.false_eq_true,
    List.append_nil]
  rw [List.takeWhile_eq_self_of_all _ _ (Js.pad2_isDigit f)]
  rw [Js.digitsVal_natToString, Js.digitsVal_pad2, Js.pad2_length f hf]
  norm_num

theorem Js.round_nonneg (q : ℚ) (h : 0 ≤ q) : 0 ≤ Js.round q := by
  unfold Js.round
  have : (0 : ℚ) ≤ q + 1 / 2 := by linarith
  exact Int.le_floor.mpr (by exact_mod_cast this)

/-- C8: for every nonnegative integer byte count, the top-level
`formatFileSize` in src/static/js/main.js and `Utils.formatFileSize` in
src/unnamed/part_000 return the same string (in the exact-rational
model of JavaScript numbers). -/
theorem formatFileSize_implementations_agree (bytes : Nat) :
    MainJs.formatFileSize bytes = Utils.formatFileSize bytes := by
  unfold MainJs.formatFileSize Utils.formatFileSize
  by_cases h : bytes = 0
  · simp [h]
  · rw [if_neg h, if_neg h]
    set q : ℚ := (bytes : ℚ) / 1024 ^ Nat.log 1024 bytes with hq
    have hqnn : 0 ≤ q := by
      rw [hq]
      positivity
    set n : Nat := (Js.round (q * 100)).toNat with hn
    have hround : ((Js.round (q * 100) : ℤ) : ℚ) = (n : ℚ) := by
      have h0 : 0 ≤ Js.round (q * 100) := Js.round_nonneg _ (by positivity)
      rw [hn]
      exact_mod_cast (Int.toNat_of_nonneg h0).symm
    have hparse : Js.parseFloat (Js.toFixed2 q) = (n : ℚ) / 100 := by
      unfold Js.toFixed2
      rw [← hn, Js.parseFloat_fixedForm (n / 100) (n % 100) (Nat.mod_lt _ (by omega))]
      have hdm : (100 : ℚ) * ((n / 100 : Nat) : ℚ) + ((n % 100 : Nat) : ℚ) = (n : ℚ) := by
        exact_mod_cast Nat.div_add_mod n 100
      field_simp
      linarith
    rw [hparse, hround]

/-! ## Claims C1 and C2: chunking -/

theorem Core.lastBoundaryUpTo_pos (p : Char → Bool) (m : Nat) (l : List Char) (k : Nat)
    (h : Core.lastBoundaryUpTo p m l = some k) : 1 ≤ k := by
  unfold Core.lastBoundaryUpTo at h
  rcases Option.map_eq_some'.mp h with ⟨j, hj, hjk⟩
  omega

theorem Core.cutPoint_pos (m : Nat) (l : List Char) : 1 ≤ Core.cutPoint m l := by
  unfold Core.cutPoint
  split
  next k heq => exact Core.lastBoundaryUpTo_pos _ _ _ _ heq
  next heq =>
    split
    next k heq2 => exact Core.lastBoundaryUpTo_pos _ _ _ _ heq2
    next heq2 => exact le_max_left 1 _

theorem Core.pieces_flatten_of_le (m : Nat) :
    ∀ (n : Nat) (l : List Char), l.length ≤ n → (Core.pieces m l).flatten = l := by
  intro n
  induction n with
  | zero =>
    intro l hl
    have : l = [] := List.eq_nil_of_length_eq_zero (by omega)
    rw [this, Core.pieces]
    simp
  | succ n ih =>
    intro l hl
    rw [Core.pieces]
    by_cases h0 : l = []
    · simp [h0]
    · rw [dif_neg h0]
      by_cases hs : l.length < m
      · simp [hs]
      · rw [if_neg hs]
        have hk : 1 ≤ Core.cutPoint m l := Core.cutPoint_pos m l
        have hlen : 0 < l.length := List.length_pos.mpr h0
        have hdrop : (l.drop (Core.cutPoint m l)).length ≤ n := by
          rw [List.length_drop]
          omega
        rw [List.flatten_cons, ih _ hdrop, List.take_append_drop]

theorem Core.pieces_flatten (m : Nat) (l : List Char) : (Core.pieces m l).flatten = l :=
  Core.pieces_flatten_of_le m l.length l le_rfl

theorem Core.stripOverlap_spansFrom_flatten (o : Nat) (full : List Char) :
    ∀ (ps : List (List Char)) (idx off : Nat),
      full.drop off = ps.flatten →
      ((Core.spansFrom o idx off ps).map
        (fun c => Core.stripOverlap o (c, String.mk (Core.unitOfChars o full c)))).flatten =
        ps.flatten := by
  intro ps
  induction ps with
  | nil => intro idx off h; rfl
  | cons p ps ih =>
    intro idx off h
    rw [List.flatten_cons] at h
    have htail : full.drop (off + p.length) = ps.flatten := by
      rw [← List.drop_drop, h, List.drop_left]
    have hhead : ∀ b e, e ≤ off → e = (if b then min o off else 0) →
        Core.stripOverlap o (⟨idx, off, off + p.length, b⟩,
          String.mk (Core.unitOfChars o full ⟨idx, off, off + p.length, b⟩)) = p := by
      intro b e he hedef
      unfold Core.stripOverlap Core.unitOfChars
      cases b with
      | false =>
        simp only [if_false]
        show (full.drop (off - 0)).take (off + p.length - (off - 0)) = p
        rw [Nat.sub_zero, Nat.add_sub_cancel_left, h]
        exact List.take_left p ps.flatten
      | true =>
        simp only [if_true]
        show ((full.drop (off - min o off)).take
          (off + p.length - (off - min o off))).drop (min o off) = p
        have hm : min o off ≤ off := Nat.min_le_right o off
        rw [List.drop_take, List.drop_drop]
        have h1 : off - min o off + min o off = off := by omega
        have h2 : off + p.length - (off - min o off) - min o off = p.length := by omega
        rw [h1, h2, h]
        exact List.take_left p ps.flatten
    show Core.stripOverlap o _ ++ _ = p ++ ps.flatten
    rw [ih (idx + 1) (off + p.length) htail]
    congr 1
    cases ho : decide (0 < idx ∧ 0 < o) with
    | false => exact hhead false 0 (Nat.zero_le off) rfl
    | true => exact hhead true (min o off) (Nat.min_le_right o off) rfl

/-- C1: for every input, merging the per-chunk payloads produced by
identity echo engines over the spans of `split` reproduces the input
exactly, for every chunk limit and every configured overlap (the
overlap being stripped by merge). -/
theorem chunking_merge_split_roundTrip (m o : Nat) (input : String) :
    Core.merge o ((Core.split m o input).map (fun c => (c, Core.unitOf o input c))) = input := by
  unfold Core.merge Core.split Core.unitOf
  rw [List.map_map]
  have h0 : input.toList.drop 0 = (Core.pieces m input.toList).flatten := by
    rw [List.drop_zero, Core.pieces_flatten]
  have h := Core.stripOverlap_spansFrom_flatten o input.toList (Core.pieces m input.toList) 0 0 h0
  show String.mk ((Core.spansFrom o 0 0 (Core.pieces m input.toList)).map
    (fun c => Core.stripOverlap o (c, String.mk (Core.unitOfChars o input.toList c)))).flatten
    = input
  rw [h, Core.pieces_flatten]
  rfl

/-- C2: a non-empty input strictly shorter than the chunk limit is
split into exactly one chunk spanning the entire input, with no
artificial splits and no overlap flag. -/
theorem split_short_input_single_chunk (m o : Nat) (input : String)
    (h1 : input ≠ "") (h2 : input.length < m) :
    Core.split m o input = [⟨0, 0, input.length, false⟩] := by
  unfold Core.split
  have hne : input.toList ≠ [] := by
    intro hd
    exact h1 (by
      cases input with
      | mk data => simp only [String.toList] at hd; rw [hd])
  rw [Core.pieces, dif_neg hne]
  have hlen : input.toList.length < m := h2
  rw [if_pos hlen]
  show (⟨0, 0, 0 + input.toList.length, decide (0 < 0 ∧ 0 < o)⟩ : Core.ChunkSpan) ::
    Core.spansFrom o 1 (0 + input.toList.length) [] = [⟨0, 0, input.length, false⟩]
  have hnil : Core.spansFrom o 1 (0 + input.toList.length) [] = [] := rfl
  rw [hnil]
  simp

/-- Witness for C2 at a concrete short input. -/
theorem split_short_input_single_chunk_witness :
    ("short input" : String) ≠ "" ∧
    ("short input" : String).length < 100 ∧
    Core.split 100 0 "short input" = [⟨0, 0, 11, false⟩] :=
  ⟨by decide, by decide,
    split_short_input_single_chunk 100 0 "short input" (by decide) (by decide)⟩

/-! ## Claims C3 and C6: fallback chain and attempt executor -/

theorem Core.resolveAux_attempted_sublist (g : Nat) (u : String) (es : List Core.EngineDescriptor) :
    List.Sublist (Core.resolveAux g u es).2 es := by
  induction es with
  | nil => exact List.Sublist.refl []
  | cons d ds ih =>
    show List.Sublist (Core.resolveAux g u (d :: ds)).2 (d :: ds)
    unfold Core.resolveAux
    cases hatt : (Core.attempt g d u).1 with
    | success p e =>
      simp only []
      exact List.Sublist.cons₂ d (List.nil_sublist ds)
    | failure k det =>
      simp only []
      exact List.Sublist.cons₂ d ih

/-- C3: for every registry order and every unit, the fallback chain
attempts at most as many engines as the registry holds for the
capability, and (for a duplicate-free registry) never attempts the
same descriptor twice. -/
theorem fallbackChain_attempt_bounds (g : Nat) (engines : List Core.EngineDescriptor)
    (u : String) (h : engines.Nodup) :
    (Core.resolve g engines u).2.length ≤ engines.length ∧
    (Core.resolve g engines u).2.Nodup :=
  ⟨(Core.resolveAux_attempted_sublist g u engines).length_le,
   h.sublist (Core.resolveAux_attempted_sublist g u engines)⟩

/-- Witness for C3 on a concrete two-engine registry. -/
theorem fallbackChain_attempt_bounds_witness :
    ([Core.sampleCloudEngine, Core.sampleOfflineEngine] : List Core.EngineDescriptor).Nodup ∧
    (Core.resolve 10 [Core.sampleCloudEngine, Core.sampleOfflineEngine] "unit").2.length ≤ 2 ∧
    (Core.resolve 10 [Core.sampleCloudEngine, Core.sampleOfflineEngine] "unit").2.Nodup := by
  have hnd : ([Core.sampleCloudEngine, Core.sampleOfflineEngine] :
      List Core.EngineDescriptor).Nodup := by
    refine List.Pairwise.cons ?_ (List.nodup_singleton _)
    intro d hd heq
    rw [List.mem_singleton] at hd
    have : Core.sampleCloudEngine.id = Core.sampleOfflineEngine.id := by rw [heq, hd]
    exact absurd this (by decide)
  have h := fallbackChain_attempt_bounds 10
    [Core.sampleCloudEngine, Core.sampleOfflineEngine] "unit" hnd
  exact ⟨hnd, h.1, h.2⟩

/-- C6: every attempt terminates and returns an outcome within the
descriptor's timeout plus the grace bound, and an engine invocation
still running at the deadline is abandoned with a Failure(Timeout, ...)
outcome. -/
theorem attempt_respects_timeout (g : Nat) (d : Core.EngineDescriptor) (u : String) :
    (Core.attempt g d u).2 ≤ d.timeout + g ∧
    (d.timeout < d.latency u →
      (Core.attempt g d u).1 =
        .failure .timeout "attempt exceeded descriptor timeout") := by
  unfold Core.attempt
  by_cases h : d.latency u ≤ d.timeout
  · rw [if_pos h]
    exact ⟨by omega, fun hlt => absurd h (by omega)⟩
  · rw [if_neg h]
    exact ⟨le_rfl, fun hlt => rfl⟩

/-- Witness for C6: the sample cloud engine takes 7000 ms against a
5000 ms timeout, so the attempt is reported as a timeout failure at
5000 ms plus the grace bound. -/
theorem attempt_respects_timeout_witness :
    Core.sampleCloudEngine.timeout < Core.sampleCloudEngine.latency "audio" ∧
    (Core.attempt 10 Core.sampleCloudEngine "audio").2 ≤ 5000 + 10 ∧
    (Core.attempt 10 Core.sampleCloudEngine "audio").1 =
      .failure .timeout "attempt exceeded descriptor timeout" :=
  ⟨by decide,
   (attempt_respects_timeout 10 Core.sampleCloudEngine "audio").1,
   (attempt_respects_timeout 10 Core.sampleCloudEngine "audio").2 (by decide)⟩

/-! ## Claim C5: empty input fails fast -/

/-- C5: for empty input, handle fails fast with InvalidRequest before
any engine is invoked (the attempted-engine trace is empty), and split
produces no chunk at all for empty input, in particular no empty
chunk. -/
theorem handle_empty_input_fails_fast (g m o : Nat) (engines : List Core.EngineDescriptor)
    (cap : Core.Capability) (sl tl : Option String) :
    Core.handle g m o engines ⟨cap, "", sl, tl⟩ =
      ⟨.failed, "", [], some .invalidRequest, []⟩ ∧
    Core.split m o "" = [] := by
  constructor
  · unfold Core.handle
    rw [if_pos rfl]
  · unfold Core.split
    have he : ("" : String).toList = [] := by decide
    have hp : Core.pieces m ("" : String).toList = [] := by
      rw [Core.pieces]
      simp only [he]
      simp
    rw [hp]
    rfl

/-! ## Claim C7: completion order does not affect the merged output -/

/-- C7: reassembly of completed chunk results is invariant under the
order in which the chunk resolutions completed: any two completion
orders that are permutations of one another (with chunk indices
pairwise distinct, as split produces them) assemble to the same merged
payload. -/
theorem assemble_completion_order_invariant (o : Nat) (l₁ l₂ : List (Core.ChunkSpan × String))
    (hperm : List.Perm l₁ l₂)
    (hidx : List.Pairwise (fun a b => a.1.index ≠ b.1.index) l₁) :
    Core.assembleInOrder o l₁ = Core.assembleInOrder o l₂ := by
  unfold Core.assembleInOrder
  suffices hs : Core.sortByIndex l₁ = Core.sortByIndex l₂ by rw [hs]
  unfold Core.sortByIndex
  have htrans : ∀ (a b c : Core.ChunkSpan × String),
      (fun a b : Core.ChunkSpan × String => decide (a.1.index ≤ b.1.index)) a b →
      (fun a b : Core.ChunkSpan × String => decide (a.1.index ≤ b.1.index)) b c →
      (fun a b : Core.ChunkSpan × String => decide (a.1.index ≤ b.1.index)) a c := by
    intro a b c hab hbc
    simp only [decide_eq_true_eq] at hab hbc ⊢
    omega
  have htotal : ∀ (a b : Core.ChunkSpan × String),
      ((fun a b : Core.ChunkSpan × String => decide (a.1.index ≤ b.1.index)) a b ||
       (fun a b : Core.ChunkSpan × String => decide (a.1.index ≤ b.1.index)) b a) = true := by
    intro a b
    simp only [Bool.or_eq_true, decide_eq_true_eq]
    omega
  have hsort1 := List.sorted_mergeSort htrans htotal l₁
  have hsort2 := List.sorted_mergeSort htrans htotal l₂
  have hperm1 := List.mergeSort_perm l₁
    (fun a b : Core.ChunkSpan × String => decide (a.1.index ≤ b.1.index))
  have hperm2 := List.mergeSort_perm l₂
    (fun a b : Core.ChunkSpan × String => decide (a.1.index ≤ b.1.index))
  have hidx2 : List.Pairwise (fun a b : Core.ChunkSpan × String => a.1.index ≠ b.1.index) l₂ :=
    (hperm.pairwise_iff (fun h => Ne.symm h)).mp hidx
  have hidxs1 := (hperm1.pairwise_iff (fun h => Ne.symm h)).mpr hidx
  have hidxs2 := (hperm2.pairwise_iff (fun h => Ne.symm h)).mpr hidx2
  have hstrict1 : List.Pairwise (fun a b : Core.ChunkSpan × String => a.1.index < b.1.index)
      (l₁.mergeSort (fun a b => decide (a.1.index ≤ b.1.index))) :=
    (hsort1.and hidxs1).imp (fun h => lt_of_le_of_ne (by simpa using h.1) h.2)
  have hstrict2 : List.Pairwise (fun a b : Core.ChunkSpan × String => a.1.index < b.1.index)
      (l₂.mergeSort (fun a b => decide (a.1.index ≤ b.1.index))) :=
    (hsort2.and hidxs2).imp (fun h => lt_of_le_of_ne (by simpa using h.1) h.2)
  have hms := hperm1.trans (hperm.trans hperm2.symm)
  haveI : IsAntisymm (Core.ChunkSpan × String)
      (fun a b : Core.ChunkSpan × String => a.1.index < b.1.index) :=
    ⟨fun a b h1 h2 => absurd h1 (by omega)⟩
  exact List.eq_of_perm_of_sorted hms hstrict1 hstrict2

/-- Witness for C7: two chunks whose second completes before the first
still assemble with the first chunk's payload in front. -/
theorem assemble_completion_order_invariant_witness :
    List.Perm
        [((⟨1, 5, 11, false⟩ : Core.ChunkSpan), " world"),
         ((⟨0, 0, 5, false⟩ : Core.ChunkSpan), "Hello")]
        [((⟨0, 0, 5, false⟩ : Core.ChunkSpan), "Hello"),
         ((⟨1, 5, 11, false⟩ : Core.ChunkSpan), " world")] ∧
    List.Pairwise (fun a b => a.1.index ≠ b.1.index)
        [((⟨1, 5, 11, false⟩ : Core.ChunkSpan), " world"),
         ((⟨0, 0, 5, false⟩ : Core.ChunkSpan), "Hello")] ∧
    Core.assembleInOrder 0
        [((⟨1, 5, 11, false⟩ : Core.ChunkSpan), " world"),
         ((⟨0, 0, 5, false⟩ : Core.ChunkSpan), "Hello")] =
      Core.assembleInOrder 0
        [((⟨0, 0, 5, false⟩ : Core.ChunkSpan), "Hello"),
         ((⟨1, 5, 11, false⟩ : Core.ChunkSpan), " world")] :=
  ⟨by decide, by decide, assemble_completion_order_invariant 0 _ _ (by decide) (by decide)⟩

/-! ## Claim C4: overall status classification -/

theorem toList_ne_nil_of_ne_empty (s : String) (h : s ≠ "") : s.toList ≠ [] := by
  intro hd
  exact h (by
    cases s with
    | mk data => simp only [String.toList] at hd; rw [hd])

theorem Core.resolveAux_isSome_of_mem_success (g : Nat) (u : String)
    (es : List Core.EngineDescriptor)
    (h : ∃ d ∈ es, Core.isSuccess (Core.attempt g d u).1 = true) :
    (Core.resolveAux g u es).1.isSome = true := by
  induction es with
  | nil => rcases h with ⟨d, hd, _⟩; cases hd
  | cons e es ih =>
    rcases h with ⟨d, hd, hs⟩
    show (Core.resolveAux g u (e :: es)).1.isSome = true
    unfold Core.resolveAux
    cases hatt : (Core.attempt g e u).1 with
    | success q eid => simp
    | failure k det =>
      show (Core.resolveAux g u es).1.isSome = true
      rcases List.mem_cons.mp hd with heq | hmem
      · rw [← heq] at hatt
        rw [hatt] at hs
        simp [Core.isSuccess] at hs
      · exact ih ⟨d, hmem, hs⟩

theorem Core.resolveAux_provenance_mem (g : Nat) (u : String) :
    ∀ (es : List Core.EngineDescriptor) (p pid : String),
      (Core.resolveAux g u es).1 = some (p, pid) → pid ∈ es.map Core.EngineDescriptor.id := by
  intro es
  induction es with
  | nil =>
    intro p pid h
    exact absurd h (by simp [Core.resolveAux])
  | cons e es ih =>
    intro p pid h
    unfold Core.resolveAux at h
    cases hatt : (Core.attempt g e u).1 with
    | success q eid =>
      rw [hatt] at h
      simp only [Prod.fst, Option.some.injEq, Prod.mk.injEq] at h
      rw [List.map_cons]
      exact h.2 ▸ List.mem_cons_self _ _
    | failure k det =>
      rw [hatt] at h
      rw [List.map_cons]
      exact List.mem_cons_of_mem _ (ih p pid h)

theorem Core.resolveAux_head_success (g : Nat) (u : String) (d : Core.EngineDescriptor)
    (ds : List Core.EngineDescriptor) (hs : Core.isSuccess (Core.attempt g d u).1 = true) :
    ∃ p, Core.resolveAux g u (d :: ds) = (some (p, d.id), [d]) := by
  unfold Core.resolveAux
  cases hatt : (Core.attempt g d u).1 with
  | success q eid => exact ⟨q, rfl⟩
  | failure k det =>
    rw [hatt] at hs
    simp [Core.isSuccess] at hs

theorem Core.resolveAux_head_failure (g : Nat) (u : String) (d : Core.EngineDescriptor)
    (ds : List Core.EngineDescriptor) (hf : Core.isSuccess (Core.attempt g d u).1 = false) :
    (Core.resolveAux g u (d :: ds)).1 = (Core.resolveAux g u ds).1 := by
  have heq : Core.resolveAux g u (d :: ds) =
      match (Core.attempt g d u).1 with
      | .success payload _ => (some (payload, d.id), [d])
      | .failure _ _ => ((Core.resolveAux g u ds).1, d :: (Core.resolveAux g u ds).2) := rfl
  rw [heq]
  cases hatt : (Core.attempt g d u).1 with
  | success q eid =>
    rw [hatt] at hf
    simp [Core.isSuccess] at hf
  | failure k det => rfl

theorem Core.spansFrom_ne_nil (o i off : Nat) (ps : List (List Char)) (h : ps ≠ []) :
    Core.spansFrom o i off ps ≠ [] := by
  cases ps with
  | nil => exact absurd rfl h
  | cons p ps => exact List.cons_ne_nil _ _

theorem Core.pieces_ne_nil (m : Nat) (l : List Char) (h : l ≠ []) : Core.pieces m l ≠ [] := by
  rw [Core.pieces, dif_neg h]
  by_cases hs : l.length < m
  · rw [if_pos hs]
    exact List.cons_ne_nil _ _
  · rw [if_neg hs]
    exact List.cons_ne_nil _ _

theorem Core.split_ne_nil (m o : Nat) (input : String) (h : input ≠ "") :
    Core.split m o input ≠ [] :=
  Core.spansFrom_ne_nil o 0 0 _ (Core.pieces_ne_nil m _ (toList_ne_nil_of_ne_empty input h))

/-- C4: for every request passing step-1 validation, with a registry
whose engine identities are duplicate-free and whose terminal engine
succeeds on every chunk unit (the deterministic terminal-success
guarantee of section 4.4), handle never returns status Failed; its
status is FullSuccess exactly when every chunk's provenance engine is
the top-priority descriptor; if the top-priority engine succeeds on
every chunk the status is FullSuccess; and if the top-priority engine
fails on every chunk the status is DegradedSuccess. -/
theorem orchestrator_status_classification (g m o : Nat)
    (engines : List Core.EngineDescriptor) (req : Core.CapabilityRequest)
    (hne : engines ≠ []) (hvalid : req.input ≠ "")
    (hids : (engines.map Core.EngineDescriptor.id).Nodup)
    (hterm : (Core.chunkUnits m o req.input).all
      (fun u => Core.isSuccess (Core.attempt g (engines.getLast hne) u).1) = true) :
    (Core.handle g m o engines req).status ≠ Core.Status.failed ∧
    ((Core.handle g m o engines req).status = Core.Status.fullSuccess ↔
      ((Core.handle g m o engines req).provenance.all
        (fun pid => pid == Core.topEngineId engines)) = true) ∧
    ((Core.chunkUnits m o req.input).all
        (fun u => Core.isSuccess (Core.attempt g (engines.head hne) u).1) = true →
      (Core.handle g m o engines req).status = Core.Status.fullSuccess) ∧
    ((Core.chunkUnits m o req.input).all
        (fun u => !Core.isSuccess (Core.attempt g (engines.head hne) u).1) = true →
      (Core.handle g m o engines req).status = Core.Status.degradedSuccess) := by
  have hAll : (Core.chunkResults g m o engines req.input).all (fun r => r.2.1.isSome) = true := by
    rw [List.all_eq_true]
    intro r hr
    rcases List.mem_map.mp hr with ⟨c, hc, hrc⟩
    rw [← hrc]
    have hu : Core.unitOf o req.input c ∈ Core.chunkUnits m o req.input :=
      List.mem_map_of_mem _ hc
    have hsucc := List.all_eq_true.mp hterm _ hu
    exact Core.resolveAux_isSome_of_mem_success g _ engines
      ⟨engines.getLast hne, List.getLast_mem hne, hsucc⟩
  have hst : (Core.handle g m o engines req).status =
      (if ((Core.chunkResults g m o engines req.input).map
            (fun r => (r.2.1.map Prod.snd).getD "")).all
            (fun pid => pid == Core.topEngineId engines)
        then Core.Status.fullSuccess else Core.Status.degradedSuccess) := by
    unfold Core.handle
    rw [if_neg hvalid, if_pos hAll]
  have hpr : (Core.handle g m o engines req).provenance =
      (Core.chunkResults g m o engines req.input).map
        (fun r => (r.2.1.map Prod.snd).getD "") := by
    unfold Core.handle
    rw [if_neg hvalid, if_pos hAll]
  obtain ⟨e0, es, rfl⟩ : ∃ e0 es, engines = e0 :: es := by
    cases engines with
    | nil => exact absurd rfl hne
    | cons e0 es => exact ⟨e0, es, rfl⟩
  have hhead : (e0 :: es).head hne = e0 := rfl
  have htop : Core.topEngineId (e0 :: es) = e0.id := rfl
  refine ⟨?_, ?_, ?_, ?_⟩
  · rw [hst]
    by_cases hP : ((Core.chunkResults g m o (e0 :: es) req.input).map
        (fun r => (r.2.1.map Prod.snd).getD "")).all
        (fun pid => pid == Core.topEngineId (e0 :: es)) = true
    · rw [if_pos hP]
      decide
    · rw [if_neg hP]
      decide
  · rw [hst, hpr]
    by_cases hP : ((Core.chunkResults g m o (e0 :: es) req.input).map
        (fun r => (r.2.1.map Prod.snd).getD "")).all
        (fun pid => pid == Core.topEngineId (e0 :: es)) = true
    · rw [if_pos hP]
      simp [hP]
    · rw [if_neg hP]
      simp [hP]
  · intro hok
    rw [hst]
    have hP : ((Core.chunkResults g m o (e0 :: es) req.input).map
        (fun r => (r.2.1.map Prod.snd).getD "")).all
        (fun pid => pid == Core.topEngineId (e0 :: es)) = true := by
      rw [List.all_eq_true]
      intro pid hpid
      rcases List.mem_map.mp hpid with ⟨r, hr, hrp⟩
      rcases List.mem_map.mp hr with ⟨c, hc, hrc⟩
      have hu : Core.unitOf o req.input c ∈ Core.chunkUnits m o req.input :=
        List.mem_map_of_mem _ hc
      have hsucc := List.all_eq_true.mp hok _ hu
      rw [hhead] at hsucc
      rcases Core.resolveAux_head_success g (Core.unitOf o req.input c) e0 es hsucc with
        ⟨p, hres⟩
      rw [← hrp, ← hrc]
      show ((((Core.resolve g (e0 :: es) (Core.unitOf o req.input c))).1.map Prod.snd).getD ""
        == Core.topEngineId (e0 :: es)) = true
      unfold Core.resolve
      rw [hres, htop]
      simp
    rw [if_pos hP]
  · intro hbad
    rw [hst]
    have hsplit := Core.split_ne_nil m o req.input hvalid
    obtain ⟨c0, cs, hsp⟩ : ∃ c0 cs, Core.split m o req.input = c0 :: cs := by
      cases hcase : Core.split m o req.input with
      | nil => exact absurd hcase hsplit
      | cons c0 cs => exact ⟨c0, cs, rfl⟩
    have hu0 : Core.unitOf o req.input c0 ∈ Core.chunkUnits m o req.input := by
      unfold Core.chunkUnits
      rw [hsp]
      exact List.mem_cons_self _ _
    have hfail0 : Core.isSuccess (Core.attempt g e0 (Core.unitOf o req.input c0)).1 = false := by
      have := List.all_eq_true.mp hbad _ hu0
      rw [hhead] at this
      simpa using this
    have hr0 : (c0, Core.resolve g (e0 :: es) (Core.unitOf o req.input c0)) ∈
        Core.chunkResults g m o (e0 :: es) req.input := by
      unfold Core.chunkResults
      rw [hsp]
      exact List.mem_cons_self _ _
    have hsome := List.all_eq_true.mp hAll _ hr0
    have hshift := Core.resolveAux_head_failure g (Core.unitOf o req.input c0) e0 es hfail0
    have hsome2 : (Core.resolveAux g (Core.unitOf o req.input c0) es).1.isSome = true := by
      rw [← hshift]
      exact hsome
    rcases Option.isSome_iff_exists.mp hsome2 with ⟨pp, hpp⟩
    obtain ⟨p, pid, rfl⟩ : ∃ p pid, pp = (p, pid) := ⟨pp.1, pp.2, rfl⟩
    have hmem : pid ∈ es.map Core.EngineDescriptor.id :=
      Core.resolveAux_provenance_mem g _ es p pid hpp
    have hnotmem : e0.id ∉ es.map Core.EngineDescriptor.id := by
      rw [List.map_cons] at hids
      exact (List.nodup_cons.mp hids).1
    have hpidne : pid ≠ e0.id := fun hcontra => hnotmem (hcontra ▸ hmem)
    have hP : ¬ ((Core.chunkResults g m o (e0 :: es) req.input).map
        (fun r => (r.2.1.map Prod.snd).getD "")).all
        (fun pid => pid == Core.topEngineId (e0 :: es)) = true := by
      intro hPt
      have hmem0 : (((c0, Core.resolve g (e0 :: es) (Core.unitOf o req.input c0)).2.1.map
          Prod.snd).getD "") ∈ (Core.chunkResults g m o (e0 :: es) req.input).map
          (fun r => (r.2.1.map Prod.snd).getD "") :=
        List.mem_map_of_mem _ hr0
      have := List.all_eq_true.mp hPt _ hmem0
      rw [htop] at this
      have hval : (((c0, Core.resolve g (e0 :: es)
          (Core.unitOf o req.input c0)).2.1.map Prod.snd).getD "") = pid := by
        show (((Core.resolve g (e0 :: es) (Core.unitOf o req.input c0)).1.map
          Prod.snd).getD "") = pid
        unfold Core.resolve
        rw [hshift, hpp]
        rfl
      rw [hval] at this
      exact hpidne (by simpa using this)
    rw [if_neg hP]

/-- Witness for C4: a two-engine registry whose primary model is
unavailable and whose deterministic terminal engine always succeeds,
on a concrete single-chunk summarization request. -/
theorem orchestrator_status_classification_witness :
    Core.sampleRegistry ≠ [] ∧
    Core.sampleRequest.input ≠ "" ∧
    (Core.sampleRegistry.map Core.EngineDescriptor.id).Nodup ∧
    (Core.chunkUnits 100 0 Core.sampleRequest.input).all
      (fun u => Core.isSuccess
        (Core.attempt 10 (Core.sampleRegistry.getLast (List.cons_ne_nil _ _)) u).1) = true ∧
    (Core.handle 10 100 0 Core.sampleRegistry Core.sampleRequest).status ≠
      Core.Status.failed ∧
    ((Core.handle 10 100 0 Core.sampleRegistry Core.sampleRequest).status =
        Core.Status.fullSuccess ↔
      ((Core.handle 10 100 0 Core.sampleRegistry Core.sampleRequest).provenance.all
        (fun pid => pid == Core.topEngineId Core.sampleRegistry)) = true) ∧
    ((Core.chunkUnits 100 0 Core.sampleRequest.input).all
        (fun u => Core.isSuccess
          (Core.attempt 10 (Core.sampleRegistry.head (List.cons_ne_nil _ _)) u).1) = true →
      (Core.handle 10 100 0 Core.sampleRegistry Core.sampleRequest).status =
        Core.Status.fullSuccess) ∧
    ((Core.chunkUnits 100 0 Core.sampleRequest.input).all
        (fun u => !Core.isSuccess
          (Core.attempt 10 (Core.sampleRegistry.head (List.cons_ne_nil _ _)) u).1) = true →
      (Core.handle 10 100 0 Core.sampleRegistry Core.sampleRequest).status =
        Core.Status.degradedSuccess) := by
  have hvalid : Core.sampleRequest.input ≠ "" := by decide
  have hids : (Core.sampleRegistry.map Core.EngineDescriptor.id).Nodup := by decide
  have hterm : (Core.chunkUnits 100 0 Core.sampleRequest.input).all
      (fun u => Core.isSuccess
        (Core.attempt 10 (Core.sampleRegistry.getLast (List.cons_ne_nil _ _)) u).1) = true := by
    show (Core.chunkUnits 100 0 "some text to summarize.").all
      (fun u => Core.isSuccess
        (Core.attempt 10 (Core.sampleRegistry.getLast (List.cons_ne_nil _ _)) u).1) = true
    unfold Core.chunkUnits
    rw [split_short_input_single_chunk 100 0 "some text to summarize."
      (by decide) (by decide)]
    decide
  have hmain := orchestrator_status_classification 10 100 0 Core.sampleRegistry
    Core.sampleRequest (List.cons_ne_nil _ _) hvalid hids hterm
  exact ⟨List.cons_ne_nil _ _, hvalid, hids, hterm, hmain.1, hmain.2.1, hmain.2.2.1,
    hmain.2.2.2⟩

end AutoComm
